import Mathlib

/-
Verification of the guide-text parser of AI-TRIP-WHISPERER (src/app.py).

The core component is parse_guide_to_dict (app.py, lines 269-310), which turns
the raw text produced by the language model into an ordered dictionary mapping
section titles to lists of items.  This file gives a shallow embedding of that
function, character-exact with respect to the Python code:

* re.split on the pattern ###\s*(.+) applied to guide_text is modelled by
  findHeading / splitRest: the pattern has no line anchor, and the capture is
  the greedy run of non-newline characters following the three hashes and a
  greedy optional whitespace run.  Regex backtracking over the whitespace run
  is modelled exactly, including the end-of-string corner in which the capture
  is a single whitespace character (capturePart).
* re.findall on the multiline pattern ^\s*\d+\.\s*(.+) applied to a section
  body is modelled by itemScan / tryItem: match attempts occur only at line
  starts, and both whitespace runs may cross newlines, exactly as the regex
  does.  The behaviour of both models was validated against CPython re on the
  corner cases (whitespace runs crossing newlines, backtracking at end of
  string, unanchored hashes).
* Python str.strip is pyStrip; the class \s is isPySpace (the Unicode
  whitespace characters recognised by Python string regexes and by strip);
  the class \d is modelled as the ASCII digits, the only simplification, and
  one that no claim below depends on.
* The Python dict is an insertion-ordered association list; assignment to an
  existing key replaces the value in place (dictInsert).
* The loop over range(0, len(sections), 2) with its bounds guard and its list
  indexing is modelled twice: guideLoop (total, consuming two list elements
  at a time) is used by parse_guide_to_dict, while guideLoopIdxF / parse_py
  is the literal index-based loop, in which out-of-range indexing returns
  none (the embedding of a Python IndexError).  The two are proved to agree
  on every input, which is the formal content of the never-raises claim.

Recursions that jump forward in the character list (to the end of a regex
match) carry an explicit fuel argument equal to the input length plus one, so
that every definition is a plain structural recursion that the kernel can
evaluate; fuel-irrelevance lemmas recover the natural unfolding equations.
-/

/-- Whitespace as recognised by Python string regexes (the class \s) and by
str.strip: the ASCII whitespace characters, the separator controls 1c-1f,
next line 85, and the Unicode space characters. -/
def isPySpace (c : Char) : Bool :=
  let n := c.toNat
  n == 0x20 || n == 0x9 || n == 0xa || n == 0xb || n == 0xc || n == 0xd ||
  n == 0x1c || n == 0x1d || n == 0x1e || n == 0x1f || n == 0x85 || n == 0xa0 ||
  n == 0x1680 || n == 0x2000 || n == 0x2001 || n == 0x2002 || n == 0x2003 ||
  n == 0x2004 || n == 0x2005 || n == 0x2006 || n == 0x2007 || n == 0x2008 ||
  n == 0x2009 || n == 0x200a || n == 0x2028 || n == 0x2029 || n == 0x202f ||
  n == 0x205f || n == 0x3000

/-- Python str.strip(): remove isPySpace characters from both ends. -/
def pyStrip (s : String) : String :=
  String.mk (((s.data.dropWhile isPySpace).reverse.dropWhile isPySpace).reverse)

/-- Matcher for the common tail \s*(.+) of both regexes, at the current
position.  The whitespace run is greedy; the capture needs at least one
character and the dot does not match a newline, so if the whitespace run
reaches the end of the string the engine backtracks to the last non-newline
whitespace character, which then forms a one-character capture.  Returns the
capture and the remaining input after the match, or none if no suffix of the
whitespace run is followed by a non-newline character. -/
def capturePart (l : List Char) : Option (String × List Char) :=
  match l.dropWhile isPySpace with
  | c :: cs =>
    some (String.mk ((c :: cs).takeWhile (· != '\n')), (c :: cs).dropWhile (· != '\n'))
  | [] =>
    match l.reverse.dropWhile (· == '\n') with
    | [] => none
    | c :: _ => some (String.mk [c], (l.reverse.takeWhile (· == '\n')).reverse)

/-- Attempt to match the section pattern ###\s*(.+) at the head of the input:
three hash characters, then the common tail. -/
def tryHeading (l : List Char) : Option (String × List Char) :=
  match l with
  | c1 :: c2 :: c3 :: t =>
    if c1 = '#' ∧ c2 = '#' ∧ c3 = '#' then capturePart t else none
  | _ => none

/-- Leftmost match of the section pattern: scan forward one character at a
time; on a match return the text before the match, the capture, and the
remaining input after the match. -/
def findHeading : List Char → Option (List Char × String × List Char)
  | [] => none
  | c :: cs =>
    match tryHeading (c :: cs) with
    | some (cap, rest) => some ([], cap, rest)
    | none =>
      match findHeading cs with
      | some (pre, cap, rest) => some (c :: pre, cap, rest)
      | none => none

/-- Fuelled tail of re.split: given the capture of the previous match and the
input after it, produce the alternating captures and in-between pieces.  The
fuel only bounds the recursion depth; splitRest supplies enough of it. -/
def splitRestF : Nat → String → List Char → List String
  | 0, cap, l => [cap, String.mk l]
  | fuel + 1, cap, l =>
    match findHeading l with
    | none => [cap, String.mk l]
    | some (pre, cap2, rest) => cap :: String.mk pre :: splitRestF fuel cap2 rest

/-- Tail of re.split with sufficient fuel. -/
def splitRest (cap : String) (l : List Char) : List String :=
  splitRestF (l.length + 1) cap l

/-- Embedding of re.split applied to the section pattern and guide_text,
followed by dropping the first piece (the slice [1:] in the source):
the flat alternating list capture1, piece1, capture2, piece2, ... -/
def sectionsOf (s : String) : List String :=
  match findHeading s.data with
  | none => []
  | some (_, cap, rest) => splitRest cap rest

/-- Attempt to match \s*\d+\.\s*(.+) at the current position (used only at
line starts): greedy whitespace, at least one digit, a period, then the
common tail.  Backtracking of the leading whitespace run and of the digit run
cannot change the outcome, so both are maximal-munch. -/
def tryItem (l : List Char) : Option (String × List Char) :=
  let l1 := l.dropWhile isPySpace
  if (l1.takeWhile Char.isDigit).isEmpty then none
  else
    match l1.dropWhile Char.isDigit with
    | c :: l3 => if c = '.' then capturePart l3 else none
    | [] => none

/-- Fuelled scan of re.findall with the multiline item pattern: walk the
input character by character; atStart records whether the current position is
a line start (position zero or just after a newline); at a line start attempt
tryItem and on success emit the capture and resume after the match. -/
def itemScanF : Nat → List Char → Bool → List String
  | 0, _, _ => []
  | _ + 1, [], _ => []
  | fuel + 1, c :: cs, true =>
    match tryItem (c :: cs) with
    | some (cap, rest) => cap :: itemScanF fuel rest false
    | none => itemScanF fuel cs (c == '\n')
  | fuel + 1, c :: cs, false => itemScanF fuel cs (c == '\n')

/-- Embedding of re.findall with the multiline item pattern, with sufficient
fuel; the initial call passes atStart = true since position zero is a line
start. -/
def itemScan (l : List Char) (atStart : Bool) : List String :=
  itemScanF (l.length + 1) l atStart

/-- One parsed item: the record with keys name and description built by the
source. -/
structure Item where
  name : String
  description : String
deriving DecidableEq, Repr

/-- The result type of the parser: the Python dict, modelled as an
insertion-ordered association list from section title to items. -/
abbrev GuideDocument := List (String × List Item)

/-- Python dict assignment d[k] = v: if the key is present, replace its value
in place; otherwise append the new entry at the end. -/
def dictInsert (d : GuideDocument) (k : String) (v : List Item) : GuideDocument :=
  if d.any (fun p => p.1 == k) then
    d.map (fun p => if p.1 == k then (k, v) else p)
  else d ++ [(k, v)]

/-- Body of the inner loop of parse_guide_to_dict for one item line: if the
line contains a pipe, split at the first pipe into name and description, both
stripped; otherwise the whole stripped line is the name and the description
is the placeholder.  The item is kept only if the name is non-empty; none
models the dropped item. -/
def parseItemLine (item_line : String) : Option Item :=
  if '|' ∈ item_line.data then
    let name := pyStrip (String.mk (item_line.data.takeWhile (· != '|')))
    let description := pyStrip (String.mk ((item_line.data.dropWhile (· != '|')).tail))
    if name = "" then none else some ⟨name, description⟩
  else
    let name := pyStrip item_line
    if name = "" then none else some ⟨name, "..."⟩

/-- Body of the outer loop of parse_guide_to_dict for one (title, body) pair:
strip both, extract the item lines from the body, parse them, and if any item
survives assign the list to the stripped title in the dict. -/
def stepSection (d : GuideDocument) (t b : String) : GuideDocument :=
  let title := pyStrip t
  let content := pyStrip b
  let items := (itemScan content.data true).filterMap parseItemLine
  if items.isEmpty then d else dictInsert d title items

/-- The loop for i in range(0, len(sections), 2) over the flat alternating
list, total form: consume two elements at a time; a leftover single element
is skipped by the bounds guard in the source. -/
def guideLoop : List String → GuideDocument → GuideDocument
  | t :: b :: rest, d => guideLoop rest (stepSection d t b)
  | _, d => d

/-- Embedding of parse_guide_to_dict (app.py, lines 269-310). -/
def parse_guide_to_dict (guide_text : String) : GuideDocument :=
  let sections := sectionsOf guide_text
  if sections.isEmpty then [] else guideLoop sections []

/-- The same loop in its literal index-based form: for i in
range(0, len(sections), 2), with the guard i + 1 < len(sections) and the two
subscript operations sections[i] and sections[i+1], whose failure (a Python
IndexError) is modelled as none.  The fuel only bounds the iteration count
and parse_py supplies enough of it. -/
def guideLoopIdxF (sections : List String) : Nat → Nat → GuideDocument → Option GuideDocument
  | fuel, i, d =>
    if i < sections.length then
      match fuel with
      | 0 => none
      | fuel' + 1 =>
        if i + 1 < sections.length then
          match sections[i]?, sections[i + 1]? with
          | some t, some b => guideLoopIdxF sections fuel' (i + 2) (stepSection d t b)
          | _, _ => none
        else guideLoopIdxF sections fuel' (i + 2) d
    else some d

/-- Embedding of parse_guide_to_dict with the literal index-based loop and
explicit indexing failure; proved below to agree with parse_guide_to_dict on
every input. -/
def parse_py (s : String) : Option GuideDocument :=
  let sections := sectionsOf s
  if sections.isEmpty then some [] else guideLoopIdxF sections (sections.length + 1) 0 []

/-- Presence of three consecutive hash characters anywhere in the input: the
necessary condition for the section pattern to match. -/
def startsWithHash3 : List Char → Bool
  | c1 :: c2 :: c3 :: _ => c1 == '#' && c2 == '#' && c3 == '#'
  | _ => false

/-- Does any position of the input start three consecutive hash characters? -/
def containsTripleHash : List Char → Bool
  | [] => false
  | c :: cs => startsWithHash3 (c :: cs) || containsTripleHash cs

/-- Modelled from the spec: split a section body into its lines (the
line-by-line reading of the item extraction in spec section 4.1). -/
def splitLines : List Char → List (List Char)
  | [] => [[]]
  | c :: cs =>
    if c = '\n' then [] :: splitLines cs
    else
      match splitLines cs with
      | [] => [[c]]
      | line :: ls => (c :: line) :: ls

/-- Modelled from the spec: match one single line against the item pattern,
read line-scoped as spec section 4.1 step 2 describes it: optional leading
whitespace, one or more digits, a period, whitespace, then content. -/
def lineItemMatch (line : List Char) : Option String :=
  let l1 := line.dropWhile isPySpace
  if (l1.takeWhile Char.isDigit).isEmpty then none
  else
    match l1.dropWhile Char.isDigit with
    | c :: l3 =>
      if c = '.' then
        match l3.dropWhile isPySpace with
        | [] => none
        | rest => some (String.mk rest)
      else none
    | [] => none

/-- Modelled from the spec: the line-scoped item extraction, applying the
line pattern to each line of the body in order. -/
def specLineExtract (l : List Char) : List String :=
  (splitLines l).filterMap lineItemMatch

/-- A line is good when it is not a dangling numbered prefix: if it consists
of optional whitespace, digits and a period, then some non-whitespace
content follows on the same line. -/
def lineGood (line : List Char) : Bool :=
  let l1 := line.dropWhile isPySpace
  if (l1.takeWhile Char.isDigit).isEmpty then true
  else
    match l1.dropWhile Char.isDigit with
    | c :: l3 => if c = '.' then !(l3.dropWhile isPySpace).isEmpty else true
    | [] => true

/-- Every line of the body is good: under this hypothesis the multiline
extraction and the line-scoped extraction agree. -/
def goodLines (l : List Char) : Bool := (splitLines l).all lineGood

/-! Basic facts about the scanners: bounds on the remaining input, fuel
irrelevance, and the natural unfolding equations. -/

theorem head_of_dropWhile_false {α : Type} {p : α → Bool} :
    ∀ {l : List α} {c : α} {cs : List α}, l.dropWhile p = c :: cs → p c = false := by
  intro l
  induction l with
  | nil => intro c cs h; simp [List.dropWhile] at h
  | cons a l ih =>
    intro c cs h
    rw [List.dropWhile_cons] at h
    split at h
    · exact ih h
    · injection h with h1 _
      subst h1
      simpa using ‹¬ _ = true›

theorem isPySpace_newline : isPySpace '\n' = true := by decide

theorem capturePart_length {l : List Char} {cap : String} {rest : List Char}
    (h : capturePart l = some (cap, rest)) : rest.length < l.length := by
  cases h1 : l.dropWhile isPySpace with
  | cons c cs =>
    simp only [capturePart, h1] at h
    have hc : isPySpace c = false := head_of_dropWhile_false h1
    have hcn : (c != '\n') = true := by
      rw [bne_iff_ne]
      intro hEq
      rw [hEq, isPySpace_newline] at hc
      cases hc
    injection h with h2
    have hrest : rest = (c :: cs).dropWhile (fun x => x != '\n') :=
      ((Prod.mk.injEq _ _ _ _).mp h2).2.symm
    have h5 : (c :: cs).dropWhile (fun x => x != '\n') = cs.dropWhile (fun x => x != '\n') :=
      @List.dropWhile_cons_of_pos _ (fun x => x != '\n') c cs hcn
    have h3 : (c :: cs).length ≤ l.length := h1 ▸ (List.dropWhile_sublist isPySpace).length_le
    have h4 : (cs.dropWhile (fun x => x != '\n')).length ≤ cs.length :=
      (List.dropWhile_sublist _).length_le
    rw [hrest, h5]
    simp only [List.length_cons] at h3
    omega
  | nil =>
    simp only [capturePart, h1] at h
    cases h2 : l.reverse.dropWhile (· == '\n') with
    | nil => rw [h2] at h; cases h
    | cons c cs =>
      rw [h2] at h
      injection h with h3
      have hrest : rest = (l.reverse.takeWhile (· == '\n')).reverse :=
        ((Prod.mk.injEq _ _ _ _).mp h3).2.symm
      have hlen := congrArg List.length
        (List.takeWhile_append_dropWhile (p := (· == '\n')) (l := l.reverse))
      rw [h2] at hlen
      simp only [List.length_append, List.length_cons, List.length_reverse] at hlen
      rw [hrest]
      simp only [List.length_reverse]
      omega

theorem tryHeading_length {l : List Char} {cap : String} {rest : List Char}
    (h : tryHeading l = some (cap, rest)) : rest.length < l.length := by
  match l with
  | [] => cases h
  | [c1] => cases h
  | [c1, c2] => cases h
  | c1 :: c2 :: c3 :: t =>
    simp only [tryHeading] at h
    split at h
    · have := capturePart_length h
      simp only [List.length_cons]
      omega
    · cases h

theorem tryItem_length {l : List Char} {cap : String} {rest : List Char}
    (h : tryItem l = some (cap, rest)) : rest.length < l.length := by
  have h1 : (l.dropWhile isPySpace).length ≤ l.length :=
    (List.dropWhile_sublist isPySpace).length_le
  cases h3 : ((l.dropWhile isPySpace).takeWhile Char.isDigit).isEmpty with
  | true =>
    simp only [tryItem, h3, if_true] at h
    cases h
  | false =>
    cases h2 : (l.dropWhile isPySpace).dropWhile Char.isDigit with
    | nil =>
      simp only [tryItem, h3, h2, Bool.false_eq_true, if_false] at h
      cases h
    | cons c l3 =>
      simp only [tryItem, h3, h2, Bool.false_eq_true, if_false] at h
      split at h
      · have h4 : (c :: l3).length ≤ (l.dropWhile isPySpace).length :=
          h2 ▸ (List.dropWhile_sublist Char.isDigit).length_le
        have h5 := capturePart_length h
        simp only [List.length_cons] at h4
        omega
      · cases h

theorem findHeading_length :
    ∀ {l pre : List Char} {cap : String} {rest : List Char},
      findHeading l = some (pre, cap, rest) → rest.length < l.length := by
  intro l
  induction l with
  | nil => intro pre cap rest h; cases h
  | cons c cs ih =>
    intro pre cap rest h
    rw [findHeading] at h
    cases h1 : tryHeading (c :: cs) with
    | some pr =>
      rw [h1] at h
      injection h with h2
      obtain ⟨cap2, rest2⟩ := pr
      have := tryHeading_length h1
      have h3 := ((Prod.mk.injEq _ _ _ _).mp h2).2
      have h4 := ((Prod.mk.injEq _ _ _ _).mp h3).2
      rw [← h4]
      exact this
    | none =>
      rw [h1] at h
      cases h5 : findHeading cs with
      | none => rw [h5] at h; cases h
      | some pr =>
        rw [h5] at h
        obtain ⟨pre2, cap2, rest2⟩ := pr
        injection h with h2
        have h3 := ((Prod.mk.injEq _ _ _ _).mp h2).2
        have h4 := ((Prod.mk.injEq _ _ _ _).mp h3).2
        rw [← h4]
        have := ih h5
        simp only [List.length_cons]
        omega

theorem splitRestF_congr :
    ∀ (f1 f2 : Nat) (cap : String) (l : List Char),
      l.length < f1 → l.length < f2 → splitRestF f1 cap l = splitRestF f2 cap l := by
  intro f1
  induction f1 with
  | zero => intro f2 cap l h1 h2; exact absurd h1 (Nat.not_lt_zero _)
  | succ f1 ih =>
    intro f2 cap l h1 h2
    match f2 with
    | 0 => exact absurd h2 (Nat.not_lt_zero _)
    | f2 + 1 =>
      cases h : findHeading l with
      | none => simp only [splitRestF, h]
      | some pr =>
        obtain ⟨pre, cap2, rest⟩ := pr
        have hlt := findHeading_length h
        simp only [splitRestF, h]
        rw [ih f2 cap2 rest (by omega) (by omega)]

theorem splitRest_eq (cap : String) (l : List Char) :
    splitRest cap l =
      match findHeading l with
      | none => [cap, String.mk l]
      | some (pre, cap2, rest) => cap :: String.mk pre :: splitRest cap2 rest := by
  have e2 : splitRestF (l.length + 1) cap l =
      match findHeading l with
      | none => [cap, String.mk l]
      | some (pre, cap2, rest) => cap :: String.mk pre :: splitRestF l.length cap2 rest := rfl
  cases h : findHeading l with
  | none =>
    show splitRestF (l.length + 1) cap l = _
    rw [e2, h]
  | some pr =>
    obtain ⟨pre, cap2, rest⟩ := pr
    have hlt := findHeading_length h
    show splitRestF (l.length + 1) cap l = _
    rw [e2, h]
    show cap :: String.mk pre :: splitRestF l.length cap2 rest =
      cap :: String.mk pre :: splitRest cap2 rest
    rw [splitRestF_congr l.length (rest.length + 1) cap2 rest (by omega) (by omega)]
    simp only [splitRest]

theorem itemScanF_zero (l : List Char) (b : Bool) : itemScanF 0 l b = [] := rfl

theorem itemScanF_succ_nil (f : Nat) (b : Bool) : itemScanF (f + 1) [] b = [] := rfl

theorem itemScanF_succ_cons_true (f : Nat) (c : Char) (cs : List Char) :
    itemScanF (f + 1) (c :: cs) true =
      match tryItem (c :: cs) with
      | some (cap, rest) => cap :: itemScanF f rest false
      | none => itemScanF f cs (c == '\n') := rfl

theorem itemScanF_succ_cons_false (f : Nat) (c : Char) (cs : List Char) :
    itemScanF (f + 1) (c :: cs) false = itemScanF f cs (c == '\n') := rfl

theorem itemScanF_congr :
    ∀ (f1 f2 : Nat) (l : List Char) (b : Bool),
      l.length < f1 → l.length < f2 → itemScanF f1 l b = itemScanF f2 l b := by
  intro f1
  induction f1 with
  | zero => intro f2 l b h1 h2; exact absurd h1 (Nat.not_lt_zero _)
  | succ f1 ih =>
    intro f2 l b h1 h2
    cases f2 with
    | zero => exact absurd h2 (Nat.not_lt_zero _)
    | succ f2 =>
      cases l with
      | nil => rw [itemScanF_succ_nil, itemScanF_succ_nil]
      | cons c cs =>
        simp only [List.length_cons] at h1 h2
        cases b with
        | false =>
          rw [itemScanF_succ_cons_false, itemScanF_succ_cons_false]
          exact ih f2 cs (c == '\n') (by omega) (by omega)
        | true =>
          rw [itemScanF_succ_cons_true, itemScanF_succ_cons_true]
          cases h : tryItem (c :: cs) with
          | none => exact ih f2 cs (c == '\n') (by omega) (by omega)
          | some pr =>
            obtain ⟨cap, rest⟩ := pr
            have hlt := tryItem_length h
            simp only [List.length_cons] at hlt
            show cap :: itemScanF f1 rest false = cap :: itemScanF f2 rest false
            rw [ih f2 rest false (by omega) (by omega)]

theorem itemScan_nil (b : Bool) : itemScan [] b = [] := rfl

theorem itemScan_cons_false (c : Char) (cs : List Char) :
    itemScan (c :: cs) false = itemScan cs (c == '\n') := rfl

theorem itemScan_cons_true (c : Char) (cs : List Char) :
    itemScan (c :: cs) true =
      match tryItem (c :: cs) with
      | some (cap, rest) => cap :: itemScan rest false
      | none => itemScan cs (c == '\n') := by
  have e1 : itemScan (c :: cs) true = itemScanF (cs.length + 1 + 1) (c :: cs) true := rfl
  rw [e1, itemScanF_succ_cons_true]
  cases h : tryItem (c :: cs) with
  | none => rfl
  | some pr =>
    obtain ⟨cap, rest⟩ := pr
    have hlt := tryItem_length h
    simp only [List.length_cons] at hlt
    show cap :: itemScanF (cs.length + 1) rest false = cap :: itemScan rest false
    rw [itemScanF_congr (cs.length + 1) (rest.length + 1) rest false (by omega) (by omega)]
    rfl

/-! Facts about the dictionary, the per-line item parser and the main loop. -/

theorem mem_dictInsert {d : GuideDocument} {k : String} {v : List Item}
    {e : String × List Item} (h : e ∈ dictInsert d k v) : e ∈ d ∨ e = (k, v) := by
  unfold dictInsert at h
  split at h
  · obtain ⟨p, hp, he⟩ := List.mem_map.mp h
    by_cases hpk : (p.1 == k) = true
    · right
      rw [if_pos hpk] at he
      exact he.symm
    · left
      rw [if_neg hpk] at he
      exact he ▸ hp
  · rcases List.mem_append.mp h with h1 | h1
    · left; exact h1
    · right; simpa using h1

theorem dictInsert_keys (d : GuideDocument) (k : String) (v : List Item) :
    (dictInsert d k v).map Prod.fst =
      if d.any (fun p => p.1 == k) then d.map Prod.fst else d.map Prod.fst ++ [k] := by
  unfold dictInsert
  split
  · rw [List.map_map]
    apply List.map_congr_left
    intro p hp
    by_cases hpk : (p.1 == k) = true
    · simp only [Function.comp_apply, if_pos hpk]
      exact (eq_of_beq hpk).symm
    · simp only [Function.comp_apply, if_neg hpk]
  · rw [List.map_append]
    rfl

theorem dictInsert_nodup {d : GuideDocument} {k : String} {v : List Item}
    (h : (d.map Prod.fst).Nodup) : ((dictInsert d k v).map Prod.fst).Nodup := by
  rw [dictInsert_keys]
  split
  · exact h
  · next hany =>
    have hk : k ∉ d.map Prod.fst := by
      intro hmem
      obtain ⟨p, hp, hpe⟩ := List.mem_map.mp hmem
      exact hany (List.any_eq_true.mpr ⟨p, hp, by simp [hpe]⟩)
    refine List.nodup_append.mpr ⟨h, List.nodup_singleton k, ?_⟩
    intro a ha hb
    simp only [List.mem_singleton] at hb
    subst hb
    exact hk ha

theorem parseItemLine_name_ne {s : String} {it : Item}
    (h : parseItemLine s = some it) : it.name ≠ "" := by
  simp only [parseItemLine] at h
  split at h
  · split at h
    · cases h
    · next hne =>
      injection h with h1
      rw [← h1]
      exact hne
  · split at h
    · cases h
    · next hne =>
      injection h with h1
      rw [← h1]
      exact hne

theorem guideLoop_nil (d : GuideDocument) : guideLoop [] d = d := rfl

theorem guideLoop_single (t : String) (d : GuideDocument) : guideLoop [t] d = d := rfl

theorem guideLoop_cons2 (t b : String) (rest : List String) (d : GuideDocument) :
    guideLoop (t :: b :: rest) d = guideLoop rest (stepSection d t b) := rfl

theorem guideLoop_inv (P : GuideDocument → Prop)
    (hstep : ∀ d t b, P d → P (stepSection d t b)) :
    ∀ (n : Nat) (secs : List String) (d : GuideDocument),
      secs.length ≤ n → P d → P (guideLoop secs d) := by
  intro n
  induction n with
  | zero =>
    intro secs d hlen hd
    cases secs with
    | nil => exact hd
    | cons t rest => simp at hlen
  | succ n ih =>
    intro secs d hlen hd
    cases secs with
    | nil => exact hd
    | cons t rest =>
      cases rest with
      | nil => exact hd
      | cons b rest2 =>
        simp only [List.length_cons] at hlen
        rw [guideLoop_cons2]
        exact ih rest2 (stepSection d t b) (by omega) (hstep d t b hd)

theorem guideLoop_invAll (P : GuideDocument → Prop)
    (hstep : ∀ d t b, P d → P (stepSection d t b))
    (secs : List String) (d : GuideDocument) (hd : P d) : P (guideLoop secs d) :=
  guideLoop_inv P hstep secs.length secs d (Nat.le_refl _) hd

theorem parse_inv (P : GuideDocument → Prop)
    (hstep : ∀ d t b, P d → P (stepSection d t b))
    (hnil : P []) (s : String) : P (parse_guide_to_dict s) := by
  show P (if (sectionsOf s).isEmpty then [] else guideLoop (sectionsOf s) [])
  split
  · exact hnil
  · exact guideLoop_invAll P hstep _ [] hnil

/-! Facts about the heading scanner. -/

theorem tryHeading_eq_none_of_ne {c : Char} (hc : c ≠ '#') (cs : List Char) :
    tryHeading (c :: cs) = none := by
  match cs with
  | [] => rfl
  | [c2] => rfl
  | c2 :: c3 :: t =>
    have e : tryHeading (c :: c2 :: c3 :: t) =
        if c = '#' ∧ c2 = '#' ∧ c3 = '#' then capturePart t else none := rfl
    rw [e, if_neg]
    intro hand
    exact hc hand.1

theorem findHeading_cons (c : Char) (cs : List Char) :
    findHeading (c :: cs) =
      match tryHeading (c :: cs) with
      | some (cap, rest) => some ([], cap, rest)
      | none =>
        match findHeading cs with
        | some (pre, cap, rest) => some (c :: pre, cap, rest)
        | none => none := rfl

theorem findHeading_append_no_hash :
    ∀ (p : List Char) (l : List Char), (∀ c ∈ p, c ≠ '#') →
      findHeading (p ++ l) = (findHeading l).map (fun x => (p ++ x.1, x.2)) := by
  intro p
  induction p with
  | nil =>
    intro l hp
    cases h : findHeading l with
    | none => simp [h]
    | some x =>
      obtain ⟨pre, cap, rest⟩ := x
      simp [h]
  | cons c p ih =>
    intro l hp
    have hc : c ≠ '#' := hp c (List.mem_cons_self c p)
    rw [List.cons_append, findHeading_cons, tryHeading_eq_none_of_ne hc,
      ih l (fun x hx => hp x (List.mem_cons_of_mem c hx))]
    cases findHeading l with
    | none => rfl
    | some x =>
      obtain ⟨pre, cap, rest⟩ := x
      rfl

theorem startsWithHash3_cons3 (c1 c2 c3 : Char) (t : List Char) :
    startsWithHash3 (c1 :: c2 :: c3 :: t) = (c1 == '#' && c2 == '#' && c3 == '#') := rfl

theorem tryHeading_eq_none_of_not_hash3 :
    ∀ {l : List Char}, startsWithHash3 l = false → tryHeading l = none := by
  intro l h
  match l with
  | [] => rfl
  | [c1] => rfl
  | [c1, c2] => rfl
  | c1 :: c2 :: c3 :: t =>
    have e : tryHeading (c1 :: c2 :: c3 :: t) =
        if c1 = '#' ∧ c2 = '#' ∧ c3 = '#' then capturePart t else none := rfl
    rw [e, if_neg]
    intro hand
    obtain ⟨h1, h2, h3⟩ := hand
    rw [startsWithHash3_cons3, h1, h2, h3] at h
    simp at h

theorem containsTripleHash_cons (c : Char) (cs : List Char) :
    containsTripleHash (c :: cs) = (startsWithHash3 (c :: cs) || containsTripleHash cs) := rfl

theorem findHeading_eq_none_of_no_hash3 :
    ∀ {l : List Char}, containsTripleHash l = false → findHeading l = none := by
  intro l
  induction l with
  | nil => intro h; rfl
  | cons c cs ih =>
    intro h
    rw [containsTripleHash_cons, Bool.or_eq_false_iff] at h
    rw [findHeading_cons, tryHeading_eq_none_of_not_hash3 h.1, ih h.2]

/-! Agreement of the index-based loop with the total loop. -/

theorem guideLoopIdxF_zero (secs : List String) (i : Nat) (d : GuideDocument) :
    guideLoopIdxF secs 0 i d = if i < secs.length then none else some d := rfl

theorem guideLoopIdxF_succ (secs : List String) (f i : Nat) (d : GuideDocument) :
    guideLoopIdxF secs (f + 1) i d =
      if i < secs.length then
        (if i + 1 < secs.length then
          match secs[i]?, secs[i + 1]? with
          | some t, some b => guideLoopIdxF secs f (i + 2) (stepSection d t b)
          | _, _ => none
        else guideLoopIdxF secs f (i + 2) d)
      else some d := rfl

theorem guideLoopIdxF_eq :
    ∀ (f : Nat) (secs : List String) (i : Nat) (d : GuideDocument),
      secs.length ≤ i + f →
      guideLoopIdxF secs f i d = some (guideLoop (secs.drop i) d) := by
  intro f
  induction f with
  | zero =>
    intro secs i d hlen
    rw [guideLoopIdxF_zero, if_neg (show ¬ i < secs.length by omega),
      List.drop_eq_nil_of_le (show secs.length ≤ i by omega), guideLoop_nil]
  | succ f ih =>
    intro secs i d hlen
    by_cases hi : i < secs.length
    · rw [guideLoopIdxF_succ, if_pos hi]
      by_cases hi1 : i + 1 < secs.length
      · rw [if_pos hi1, List.getElem?_eq_getElem hi, List.getElem?_eq_getElem hi1]
        show guideLoopIdxF secs f (i + 2) (stepSection d secs[i] secs[i + 1]) = _
        rw [ih secs (i + 2) (stepSection d secs[i] secs[i + 1]) (by omega)]
        congr 1
        rw [List.drop_eq_getElem_cons hi, List.drop_eq_getElem_cons hi1]
        rfl
      · rw [if_neg hi1, ih secs (i + 2) d (by omega)]
        congr 1
        rw [List.drop_eq_getElem_cons hi,
          List.drop_eq_nil_of_le (show secs.length ≤ i + 1 by omega),
          List.drop_eq_nil_of_le (show secs.length ≤ i + 2 by omega)]
        rfl
    · rw [guideLoopIdxF_succ, if_neg hi,
        List.drop_eq_nil_of_le (show secs.length ≤ i by omega), guideLoop_nil]

theorem parse_py_eq (s : String) : parse_py s = some (parse_guide_to_dict s) := by
  show (if (sectionsOf s).isEmpty then some [] else
      guideLoopIdxF (sectionsOf s) ((sectionsOf s).length + 1) 0 []) = some (parse_guide_to_dict s)
  by_cases h : ((sectionsOf s).isEmpty : Bool) = true
  · rw [if_pos h]
    show _ = some (if (sectionsOf s).isEmpty then [] else guideLoop (sectionsOf s) [])
    rw [if_pos h]
  · rw [if_neg h,
      guideLoopIdxF_eq ((sectionsOf s).length + 1) (sectionsOf s) 0 [] (by omega),
      List.drop_zero]
    show _ = some (if (sectionsOf s).isEmpty then [] else guideLoop (sectionsOf s) [])
    rw [if_neg h]

theorem stepSection_eq (d : GuideDocument) (t b : String) :
    stepSection d t b =
      if ((itemScan (pyStrip b).data true).filterMap parseItemLine).isEmpty then d
      else dictInsert d (pyStrip t) ((itemScan (pyStrip b).data true).filterMap parseItemLine) :=
  rfl

theorem stepSection_pres_names {d : GuideDocument} {t b : String}
    (hd : ∀ e ∈ d, ∀ it ∈ e.2, it.name ≠ "") :
    ∀ e ∈ stepSection d t b, ∀ it ∈ e.2, it.name ≠ "" := by
  intro e he it hit
  rw [stepSection_eq] at he
  split at he
  · exact hd e he it hit
  · rcases mem_dictInsert he with h1 | h1
    · exact hd e h1 it hit
    · subst h1
      obtain ⟨line, _, hline⟩ := List.mem_filterMap.mp hit
      exact parseItemLine_name_ne hline

theorem stepSection_pres_nonempty {d : GuideDocument} {t b : String}
    (hd : ∀ e ∈ d, e.2 ≠ []) :
    ∀ e ∈ stepSection d t b, e.2 ≠ [] := by
  intro e he
  rw [stepSection_eq] at he
  split at he
  · exact hd e he
  · next hne =>
    rcases mem_dictInsert he with h1 | h1
    · exact hd e h1
    · subst h1
      intro hc
      exact hne (List.isEmpty_iff.mpr hc)

theorem stepSection_pres_nodup {d : GuideDocument} {t b : String}
    (hd : (d.map Prod.fst).Nodup) : ((stepSection d t b).map Prod.fst).Nodup := by
  rw [stepSection_eq]
  split
  · exact hd
  · exact dictInsert_nodup hd

theorem sectionsOf_eq_nil_of_no_hash3 {s : String} (h : containsTripleHash s.data = false) :
    sectionsOf s = [] := by
  unfold sectionsOf
  rw [findHeading_eq_none_of_no_hash3 h]

theorem parse_eq_nil_of_sections_nil {s : String} (h : sectionsOf s = []) :
    parse_guide_to_dict s = [] := by
  show (if (sectionsOf s).isEmpty then [] else guideLoop (sectionsOf s) []) = []
  rw [h]
  rfl

theorem parse_append_no_hash (pre s : String) (h : ∀ c ∈ pre.data, c ≠ '#') :
    parse_guide_to_dict (pre ++ s) = parse_guide_to_dict s := by
  have e : sectionsOf (pre ++ s) = sectionsOf s := by
    unfold sectionsOf
    rw [String.data_append, findHeading_append_no_hash pre.data s.data h]
    cases findHeading s.data with
    | none => rfl
    | some x =>
      obtain ⟨p2, cap, rest⟩ := x
      rfl
  show (if (sectionsOf (pre ++ s)).isEmpty then [] else guideLoop (sectionsOf (pre ++ s)) []) = _
  rw [e]
  rfl

/-! Facts about whitespace stripping and the per-line field split. -/

theorem mk_data (s : String) : String.mk s.data = s := rfl

theorem of_pyStrip_eq_self {N : String} (h : pyStrip N = N) :
    N.data.dropWhile isPySpace = N.data ∧
      N.data.reverse.dropWhile isPySpace = N.data.reverse := by
  have hdata : ((N.data.dropWhile isPySpace).reverse.dropWhile isPySpace).reverse = N.data :=
    congrArg String.data h
  have l1 : (N.data.dropWhile isPySpace).length ≤ N.data.length :=
    (List.dropWhile_sublist _).length_le
  have l2 : ((N.data.dropWhile isPySpace).reverse.dropWhile isPySpace).length ≤
      (N.data.dropWhile isPySpace).reverse.length :=
    (List.dropWhile_sublist _).length_le
  have hlen := congrArg List.length hdata
  simp only [List.length_reverse] at hlen l2
  have e1 : N.data.dropWhile isPySpace = N.data :=
    (List.dropWhile_sublist isPySpace).eq_of_length (by omega)
  refine ⟨e1, ?_⟩
  rw [e1] at hdata
  have h2 := congrArg List.reverse hdata
  simpa using h2

theorem dropWhile_self_head {α : Type} {p : α → Bool} {c : α} {cs : List α}
    (h : (c :: cs).dropWhile p = c :: cs) : p c = false := by
  by_cases hc : p c = true
  · rw [List.dropWhile_cons_of_pos hc] at h
    have h1 := congrArg List.length h
    have h2 := (List.dropWhile_sublist (l := cs) p).length_le
    simp only [List.length_cons] at h1
    omega
  · simpa using hc

theorem parseItemLine_pipe (a b : String) (ha : '|' ∉ a.data) :
    parseItemLine (a ++ "|" ++ b) =
      if pyStrip a = "" then none else some ⟨pyStrip a, pyStrip b⟩ := by
  have hdata : (a ++ "|" ++ b).data = a.data ++ '|' :: b.data := by
    simp [String.data_append]
  have hmem : '|' ∈ (a ++ "|" ++ b).data := by
    rw [hdata]
    simp
  have hpos : ∀ c ∈ a.data, (c != '|') = true := by
    intro c hc
    exact bne_iff_ne.mpr (fun hcp => ha (hcp ▸ hc))
  have htake : (a.data ++ '|' :: b.data).takeWhile (fun x => x != '|') = a.data := by
    rw [List.takeWhile_append_of_pos hpos, List.takeWhile_cons_of_neg (by simp), List.append_nil]
  have hdrop : (a.data ++ '|' :: b.data).dropWhile (fun x => x != '|') = '|' :: b.data := by
    rw [List.dropWhile_append_of_pos hpos, List.dropWhile_cons_of_neg (by simp)]
  simp only [parseItemLine, if_pos hmem, hdata, htake, hdrop, List.tail_cons, mk_data]
  rw [if_pos (show '|' ∈ a.data ++ '|' :: b.data by simp)]

theorem parseItemLine_no_pipe (s : String) (hs : '|' ∉ s.data) :
    parseItemLine s = if pyStrip s = "" then none else some ⟨pyStrip s, "..."⟩ := by
  simp only [parseItemLine, if_neg hs]

/-! Symbolic one-item runs of the whole parser, used for the claims about a
single item line below a single heading. -/

theorem data_ne_nil {s : String} (h : s ≠ "") : s.data ≠ [] :=
  fun hc => h (String.ext (show s.data = "".data from hc))

theorem ne_empty_of_data {s : String} (h : s.data ≠ []) : s ≠ "" :=
  fun hc => h (show s.data = [] from congrArg String.data hc)

theorem dropWhile_append_self {α : Type} {p : α → Bool} {A B : List α}
    (hA : A.dropWhile p = A) (hne : A ≠ []) : (A ++ B).dropWhile p = A ++ B := by
  rw [List.dropWhile_append, hA, if_neg (fun hc => hne (List.isEmpty_iff.mp hc))]

theorem findHeading_none_of_no_hash :
    ∀ (l : List Char), (∀ c ∈ l, c ≠ '#') → findHeading l = none := by
  intro l
  induction l with
  | nil => intro h; rfl
  | cons c cs ih =>
    intro h
    rw [findHeading_cons, tryHeading_eq_none_of_ne (h c (List.mem_cons_self c cs)) cs,
      ih (fun x hx => h x (List.mem_cons_of_mem c hx))]

theorem capturePart_pos {l : List Char} {c : Char} {cs : List Char}
    (h : l.dropWhile isPySpace = c :: cs) :
    capturePart l = some (String.mk ((c :: cs).takeWhile (fun x => x != '\n')),
      (c :: cs).dropWhile (fun x => x != '\n')) := by
  simp only [capturePart, h]

theorem tryItem_guide_line (M : List Char) (h1 : M.dropWhile isPySpace = M)
    (hnl : '\n' ∉ M) (hne : M ≠ []) :
    tryItem ('2' :: '.' :: ' ' :: M) = some (String.mk M, []) := by
  obtain ⟨c0, cs0, rfl⟩ : ∃ c0 cs0, M = c0 :: cs0 := by
    cases M with
    | nil => exact absurd rfl hne
    | cons a l => exact ⟨a, l, rfl⟩
  have hdw1 : ('2' :: '.' :: ' ' :: c0 :: cs0).dropWhile isPySpace =
      '2' :: '.' :: ' ' :: c0 :: cs0 :=
    List.dropWhile_cons_of_neg (by decide)
  have htk : ('2' :: '.' :: ' ' :: c0 :: cs0).takeWhile Char.isDigit = ['2'] := by
    rw [List.takeWhile_cons_of_pos (by decide), List.takeWhile_cons_of_neg (by decide)]
  have hdd : ('2' :: '.' :: ' ' :: c0 :: cs0).dropWhile Char.isDigit = '.' :: ' ' :: c0 :: cs0 := by
    rw [List.dropWhile_cons_of_pos (by decide), List.dropWhile_cons_of_neg (by decide)]
  have hdw2 : (' ' :: c0 :: cs0).dropWhile isPySpace = c0 :: cs0 := by
    rw [List.dropWhile_cons_of_pos (by decide)]
    exact h1
  have htw : (c0 :: cs0).takeWhile (fun x => x != '\n') = c0 :: cs0 :=
    List.takeWhile_eq_self_iff.mpr (fun x hx => bne_iff_ne.mpr (fun he => hnl (he ▸ hx)))
  have hdwn : (c0 :: cs0).dropWhile (fun x => x != '\n') = [] :=
    List.dropWhile_eq_nil_iff.mpr (fun x hx => bne_iff_ne.mpr (fun he => hnl (he ▸ hx)))
  have hcp : capturePart (' ' :: c0 :: cs0) = some (String.mk (c0 :: cs0), []) := by
    rw [capturePart_pos hdw2, htw, hdwn]
  simp only [tryItem, hdw1, htk, hdd, hcp]
  simp

theorem parse_single_item (N : String) (hne : N ≠ "") (hstrip : pyStrip N = N)
    (hnl : '\n' ∉ N.data) (hh : '#' ∉ N.data) :
    parse_guide_to_dict ("### T\n2. " ++ N) =
      match parseItemLine N with
      | some it => [("T", [it])]
      | none => [] := by
  obtain ⟨h1, h2⟩ := of_pyStrip_eq_self hstrip
  have hdne : N.data ≠ [] := data_ne_nil hne
  have hrne : N.data.reverse ≠ [] := by simpa using hdne
  have hL : ("### T\n2. " ++ N).data =
      '#' :: '#' :: '#' :: ' ' :: 'T' :: '\n' :: '2' :: '.' :: ' ' :: N.data := by
    rw [String.data_append,
      show "### T\n2. ".data = ['#', '#', '#', ' ', 'T', '\n', '2', '.', ' '] from by decide]
    rfl
  have hcap : capturePart (' ' :: 'T' :: '\n' :: '2' :: '.' :: ' ' :: N.data) =
      some ("T", '\n' :: '2' :: '.' :: ' ' :: N.data) := by
    have hdw : (' ' :: 'T' :: '\n' :: '2' :: '.' :: ' ' :: N.data).dropWhile isPySpace =
        'T' :: '\n' :: '2' :: '.' :: ' ' :: N.data := by
      rw [List.dropWhile_cons_of_pos (by decide), List.dropWhile_cons_of_neg (by decide)]
    have htw : ('T' :: '\n' :: '2' :: '.' :: ' ' :: N.data).takeWhile (fun x => x != '\n') =
        ['T'] := by
      rw [List.takeWhile_cons_of_pos (by decide), List.takeWhile_cons_of_neg (by decide)]
    have hdwn : ('T' :: '\n' :: '2' :: '.' :: ' ' :: N.data).dropWhile (fun x => x != '\n') =
        '\n' :: '2' :: '.' :: ' ' :: N.data := by
      rw [List.dropWhile_cons_of_pos (by decide), List.dropWhile_cons_of_neg (by decide)]
    rw [capturePart_pos hdw, htw, hdwn]
  have htryH : tryHeading ('#' :: '#' :: '#' :: ' ' :: 'T' :: '\n' :: '2' :: '.' :: ' ' :: N.data) =
      some ("T", '\n' :: '2' :: '.' :: ' ' :: N.data) := by
    have e : tryHeading ('#' :: '#' :: '#' :: ' ' :: 'T' :: '\n' :: '2' :: '.' :: ' ' :: N.data) =
        if '#' = '#' ∧ '#' = '#' ∧ '#' = '#' then
          capturePart (' ' :: 'T' :: '\n' :: '2' :: '.' :: ' ' :: N.data)
        else none := rfl
    rw [e, if_pos ⟨rfl, rfl, rfl⟩, hcap]
  have hfind : findHeading (("### T\n2. " ++ N).data) =
      some ([], "T", '\n' :: '2' :: '.' :: ' ' :: N.data) := by
    rw [hL, findHeading_cons, htryH]
  have hnohash : ∀ c ∈ ('\n' :: '2' :: '.' :: ' ' :: N.data), c ≠ '#' := by
    intro c hc
    simp only [List.mem_cons] at hc
    rcases hc with rfl | rfl | rfl | rfl | hc
    · decide
    · decide
    · decide
    · decide
    · exact fun he => hh (he ▸ hc)
  have hsec : sectionsOf ("### T\n2. " ++ N) =
      ["T", String.mk ('\n' :: '2' :: '.' :: ' ' :: N.data)] := by
    unfold sectionsOf
    rw [hfind]
    show splitRest "T" ('\n' :: '2' :: '.' :: ' ' :: N.data) = _
    rw [splitRest_eq, findHeading_none_of_no_hash _ hnohash]
  have hcontent : pyStrip (String.mk ('\n' :: '2' :: '.' :: ' ' :: N.data)) =
      String.mk ('2' :: '.' :: ' ' :: N.data) := by
    show String.mk (((('\n' :: '2' :: '.' :: ' ' :: N.data).dropWhile
        isPySpace).reverse.dropWhile isPySpace).reverse) = String.mk ('2' :: '.' :: ' ' :: N.data)
    have step1 : ('\n' :: '2' :: '.' :: ' ' :: N.data).dropWhile isPySpace =
        '2' :: '.' :: ' ' :: N.data := by
      rw [List.dropWhile_cons_of_pos (by decide), List.dropWhile_cons_of_neg (by decide)]
    rw [step1,
      show ('2' :: '.' :: ' ' :: N.data).reverse = N.data.reverse ++ [' ', '.', '2'] from by simp,
      dropWhile_append_self h2 hrne]
    simp
  have htitle : pyStrip "T" = "T" := by decide
  have hscan : itemScan ('2' :: '.' :: ' ' :: N.data) true = [N] := by
    rw [itemScan_cons_true, tryItem_guide_line N.data h1 hnl hdne]
    show String.mk N.data :: itemScan [] false = [N]
    rw [mk_data, itemScan_nil]
  show (if (sectionsOf ("### T\n2. " ++ N)).isEmpty then []
      else guideLoop (sectionsOf ("### T\n2. " ++ N)) []) = _
  rw [hsec, if_neg (by simp), guideLoop_cons2, guideLoop_nil, stepSection_eq, htitle, hcontent]
  show (if ((itemScan ('2' :: '.' :: ' ' :: N.data) true).filterMap parseItemLine).isEmpty then []
      else dictInsert [] "T"
        ((itemScan ('2' :: '.' :: ' ' :: N.data) true).filterMap parseItemLine)) = _
  rw [hscan]
  cases hpl : parseItemLine N with
  | none => simp [hpl]
  | some it =>
    have hfm : ([N].filterMap parseItemLine) = [it] := by simp [hpl]
    rw [hfm]
    simp [dictInsert]

theorem pyStrip_append_space (N : String) (hne : N ≠ "") (hstrip : pyStrip N = N) :
    pyStrip (N ++ " ") = N := by
  obtain ⟨h1, h2⟩ := of_pyStrip_eq_self hstrip
  have hdne : N.data ≠ [] := data_ne_nil hne
  show String.mk ((((N ++ " ").data.dropWhile isPySpace).reverse.dropWhile isPySpace).reverse) = N
  have hd : (N ++ " ").data = N.data ++ [' '] := by rw [String.data_append]
  rw [hd, dropWhile_append_self h1 hdne,
    show (N.data ++ [' ']).reverse = ' ' :: N.data.reverse from by simp,
    List.dropWhile_cons_of_pos (by decide), h2]
  simp [mk_data]

theorem parseItemLine_trailing_bar (N : String) (hpipe : '|' ∉ N.data) (hne : N ≠ "")
    (hstrip : pyStrip N = N) :
    parseItemLine (N ++ " |") = some ⟨N, ""⟩ := by
  have e1 : N ++ " |" = (N ++ " ") ++ "|" ++ "" := by
    rw [String.append_empty,
      show (" |" : String) = " " ++ "|" from by decide, ← String.append_assoc]
  have hp2 : '|' ∉ (N ++ " ").data := by
    rw [show (N ++ " ").data = N.data ++ [' '] from by rw [String.data_append]]
    intro hc
    rcases List.mem_append.mp hc with hc1 | hc1
    · exact hpipe hc1
    · simp at hc1
  rw [e1, parseItemLine_pipe (N ++ " ") "" hp2, pyStrip_append_space N hne hstrip,
    if_neg hne, show pyStrip "" = "" from by decide]

/-! Agreement of the multiline item scan with the line-scoped reading of the
spec, on bodies in which no numbered prefix dangles at the end of a line. -/

theorem splitLines_cons_nl (cs : List Char) : splitLines ('\n' :: cs) = [] :: splitLines cs := by
  simp [splitLines]

theorem splitLines_cons_other {c : Char} (h : c ≠ '\n') (cs : List Char) :
    splitLines (c :: cs) =
      match splitLines cs with
      | [] => [[c]]
      | line :: ls => (c :: line) :: ls := by
  simp [splitLines, h]

theorem splitLines_no_nl : ∀ (l : List Char), '\n' ∉ l → splitLines l = [l] := by
  intro l
  induction l with
  | nil => intro h; rfl
  | cons c cs ih =>
    intro h
    rw [splitLines_cons_other (fun hc => h (hc ▸ List.mem_cons_self c cs)) cs,
      ih (fun hc => h (List.mem_cons_of_mem c hc))]

theorem splitLines_append :
    ∀ (fl : List Char), '\n' ∉ fl → ∀ (r : List Char),
      splitLines (fl ++ '\n' :: r) = fl :: splitLines r := by
  intro fl
  induction fl with
  | nil => intro h r; exact splitLines_cons_nl r
  | cons c fl ih =>
    intro h r
    rw [List.cons_append,
      splitLines_cons_other (fun hc => h (hc ▸ List.mem_cons_self c fl)) _,
      ih (fun hc => h (List.mem_cons_of_mem c hc)) r]

theorem itemScan_false_no_nl : ∀ (xs : List Char), '\n' ∉ xs → itemScan xs false = [] := by
  intro xs
  induction xs with
  | nil => intro h; rfl
  | cons c cs ih =>
    intro h
    rw [itemScan_cons_false,
      show (c == '\n') = false from
        beq_eq_false_iff_ne.mpr (fun hc => h (hc ▸ List.mem_cons_self c cs)),
      ih (fun hc => h (List.mem_cons_of_mem c hc))]

theorem itemScan_walk_false :
    ∀ (xs : List Char), '\n' ∉ xs → ∀ (r : List Char),
      itemScan (xs ++ '\n' :: r) false = itemScan r true := by
  intro xs
  induction xs with
  | nil =>
    intro h r
    rw [List.nil_append, itemScan_cons_false, show ('\n' == '\n') = true from by decide]
  | cons c cs ih =>
    intro h r
    rw [List.cons_append, itemScan_cons_false,
      show (c == '\n') = false from
        beq_eq_false_iff_ne.mpr (fun hc => h (hc ▸ List.mem_cons_self c cs)),
      ih (fun hc => h (List.mem_cons_of_mem c hc)) r]

theorem tryItem_eq_of_dropWhile (l1 l2 : List Char)
    (h : l1.dropWhile isPySpace = l2.dropWhile isPySpace) : tryItem l1 = tryItem l2 := by
  simp only [tryItem, h]

theorem tryItem_nil : tryItem [] = none := by decide

theorem tryItem_none_of_ws {l : List Char} (h : l.dropWhile isPySpace = []) :
    tryItem l = none := by
  simp [tryItem, h]

theorem lineItemMatch_none_of_ws {fl : List Char} (h : fl.dropWhile isPySpace = []) :
    lineItemMatch fl = none := by
  simp [lineItemMatch, h]

theorem nlFree_of_sub {fl sub : List Char} (hnl : '\n' ∉ fl) (hs : sub ⊆ fl) :
    ∀ x ∈ sub, (x != '\n') = true := by
  intro x hx
  exact bne_iff_ne.mpr (fun he => hnl (he ▸ hs hx))

theorem tryItem_append_some {fl : List Char} {cap : String} (S : List Char)
    (hnl : '\n' ∉ fl) (hS : S = [] ∨ ∃ r, S = '\n' :: r)
    (h : lineItemMatch fl = some cap) :
    tryItem (fl ++ S) = some (cap, S) := by
  cases hD : ((fl.dropWhile isPySpace).takeWhile Char.isDigit).isEmpty with
  | true => simp [lineItemMatch, hD] at h
  | false =>
    cases hAd : (fl.dropWhile isPySpace).dropWhile Char.isDigit with
    | nil => simp [lineItemMatch, hD, hAd] at h
    | cons c l3 =>
      by_cases hc : c = '.'
      · subst hc
        cases hR : l3.dropWhile isPySpace with
        | nil => simp [lineItemMatch, hD, hAd, hR] at h
        | cons r0 R =>
          have hlm : lineItemMatch fl = some (String.mk (r0 :: R)) := by
            simp only [lineItemMatch, hD, Bool.false_eq_true, if_false, hAd, hR]
            simp
          have hcap : cap = String.mk (r0 :: R) := by
            rw [hlm] at h
            injection h with h1
            exact h1.symm
          have hAne : fl.dropWhile isPySpace ≠ [] := by
            intro hcon
            rw [hcon] at hD
            simp at hD
          have hfl_dw : (fl ++ S).dropWhile isPySpace = fl.dropWhile isPySpace ++ S := by
            rw [List.dropWhile_append,
              if_neg (fun hcon => hAne (List.isEmpty_iff.mp hcon))]
          have hsubR : (r0 :: R) ⊆ fl := by
            have s1 : List.Sublist (r0 :: R) l3 := hR ▸ List.dropWhile_sublist isPySpace
            have s2 : List.Sublist l3 ('.' :: l3) := List.sublist_cons_self '.' l3
            have s3 : List.Sublist ('.' :: l3) (fl.dropWhile isPySpace) :=
              hAd ▸ List.dropWhile_sublist _
            have s4 : List.Sublist (fl.dropWhile isPySpace) fl := List.dropWhile_sublist isPySpace
            exact (((s1.trans s2).trans s3).trans s4).subset
          have hRnl : ∀ x ∈ (r0 :: R), (x != '\n') = true := nlFree_of_sub hnl hsubR
          have htkD : ((fl.dropWhile isPySpace ++ S).takeWhile Char.isDigit).isEmpty = false := by
            cases hA : fl.dropWhile isPySpace with
            | nil => exact absurd hA hAne
            | cons a A2 =>
              have ha : Char.isDigit a = true := by
                by_cases hda : Char.isDigit a = true
                · exact hda
                · rw [hA, List.takeWhile_cons_of_neg (by simpa using hda)] at hD
                  simp at hD
              rw [List.cons_append, List.takeWhile_cons_of_pos ha]
              rfl
          have hddD : (fl.dropWhile isPySpace ++ S).dropWhile Char.isDigit =
              '.' :: (l3 ++ S) := by
            rw [List.dropWhile_append, hAd, if_neg (by simp)]
            rfl
          have hl3dw : (l3 ++ S).dropWhile isPySpace = r0 :: (R ++ S) := by
            rw [List.dropWhile_append, hR, if_neg (by simp)]
            rfl
          have hcp : capturePart (l3 ++ S) = some (cap, S) := by
            rw [capturePart_pos hl3dw]
            rcases hS with rfl | ⟨r, rfl⟩
            · rw [show (r0 :: (R ++ ([] : List Char))) = r0 :: R from by simp,
                List.takeWhile_eq_self_iff.mpr hRnl,
                List.dropWhile_eq_nil_iff.mpr hRnl, hcap]
            · rw [show (r0 :: (R ++ '\n' :: r)) = (r0 :: R) ++ '\n' :: r from by simp,
                List.takeWhile_append_of_pos hRnl,
                List.takeWhile_cons_of_neg (by simp), List.append_nil,
                List.dropWhile_append_of_pos hRnl,
                List.dropWhile_cons_of_neg (by simp), hcap]
          simp only [tryItem, hfl_dw, htkD, Bool.false_eq_true, if_false, hddD]
          simp [hcp]
      · simp [lineItemMatch, hD, hAd, hc] at h

theorem tryItem_append_none {fl : List Char} (S : List Char)
    (hS : S = [] ∨ ∃ r, S = '\n' :: r)
    (hAne : fl.dropWhile isPySpace ≠ [])
    (hgood : lineGood fl = true) (h : lineItemMatch fl = none) :
    tryItem (fl ++ S) = none := by
  have hfl_dw : (fl ++ S).dropWhile isPySpace = fl.dropWhile isPySpace ++ S := by
    rw [List.dropWhile_append, if_neg (fun hcon => hAne (List.isEmpty_iff.mp hcon))]
  cases hD : ((fl.dropWhile isPySpace).takeWhile Char.isDigit).isEmpty with
  | true =>
    cases hA : fl.dropWhile isPySpace with
    | nil => exact absurd hA hAne
    | cons a A2 =>
      have ha : Char.isDigit a = false := by
        by_cases hda : Char.isDigit a = true
        · rw [hA, List.takeWhile_cons_of_pos hda] at hD
          simp at hD
        · simpa using hda
      have htkD : ((fl.dropWhile isPySpace ++ S).takeWhile Char.isDigit).isEmpty = true := by
        rw [hA, List.cons_append, List.takeWhile_cons_of_neg (by simp [ha])]
        rfl
      simp only [tryItem, hfl_dw, htkD, if_true]
  | false =>
    have htkD : ((fl.dropWhile isPySpace ++ S).takeWhile Char.isDigit).isEmpty = false := by
      cases hA : fl.dropWhile isPySpace with
      | nil => exact absurd hA hAne
      | cons a A2 =>
        have ha : Char.isDigit a = true := by
          by_cases hda : Char.isDigit a = true
          · exact hda
          · rw [hA, List.takeWhile_cons_of_neg (by simpa using hda)] at hD
            simp at hD
        rw [List.cons_append, List.takeWhile_cons_of_pos ha]
        rfl
    cases hAd : (fl.dropWhile isPySpace).dropWhile Char.isDigit with
    | nil =>
      have hddD : (fl.dropWhile isPySpace ++ S).dropWhile Char.isDigit =
          S.dropWhile Char.isDigit := by
        rw [List.dropWhile_append, hAd]
        simp
      rcases hS with rfl | ⟨r, rfl⟩
      · simp only [tryItem, hfl_dw, htkD, Bool.false_eq_true, if_false, hddD,
          List.dropWhile_nil]
      · have hS2 : ('\n' :: r).dropWhile Char.isDigit = '\n' :: r :=
          List.dropWhile_cons_of_neg (by decide)
        simp only [tryItem, hfl_dw, htkD, Bool.false_eq_true, if_false, hddD, hS2]
        simp
    | cons c l3 =>
      by_cases hc : c = '.'
      · subst hc
        cases hR : l3.dropWhile isPySpace with
        | cons r0 R => simp [lineItemMatch, hD, hAd, hR] at h
        | nil =>
          have hbad : lineGood fl = false := by
            simp only [lineGood, hD, Bool.false_eq_true, if_false, hAd, hR]
            simp
          rw [hbad] at hgood
          cases hgood
      · have hddD : (fl.dropWhile isPySpace ++ S).dropWhile Char.isDigit =
            c :: (l3 ++ S) := by
          rw [List.dropWhile_append, hAd, if_neg (by simp)]
          rfl
        simp only [tryItem, hfl_dw, htkD, Bool.false_eq_true, if_false, hddD]
        simp [hc]

theorem itemScan_eq_specLine :
    ∀ (n : Nat) (l : List Char), l.length ≤ n → goodLines l = true →
      itemScan l true = specLineExtract l := by
  intro n
  induction n with
  | zero =>
    intro l hlen hgood
    cases l with
    | nil => decide
    | cons c cs => simp at hlen
  | succ n ih =>
    intro l hlen hgood
    by_cases hmem : '\n' ∈ l
    · have hddw : l.dropWhile (fun c => c != '\n') ≠ [] := by
        rw [Ne, List.dropWhile_eq_nil_iff]
        intro hall
        have h0 := hall '\n' hmem
        simp at h0
      obtain ⟨c1, r, hdr⟩ : ∃ c1 r, l.dropWhile (fun c => c != '\n') = c1 :: r := by
        cases hcase : l.dropWhile (fun c => c != '\n') with
        | nil => exact absurd hcase hddw
        | cons a b => exact ⟨a, b, rfl⟩
      have hc1 : c1 = '\n' := by
        have h0 := head_of_dropWhile_false hdr
        simpa using h0
      subst hc1
      obtain ⟨fl, hdecomp, hflnl⟩ : ∃ fl, l = fl ++ '\n' :: r ∧ '\n' ∉ fl := by
        refine ⟨l.takeWhile (fun c => c != '\n'), ?_, ?_⟩
        · conv_lhs => rw [← List.takeWhile_append_dropWhile (p := fun c => c != '\n') (l := l)]
          rw [hdr]
        · intro hmem2
          have h0 := List.mem_takeWhile_imp hmem2
          simp at h0
      subst hdecomp
      have hrlen : r.length ≤ n := by
        simp only [List.length_append, List.length_cons] at hlen
        omega
      have hsl : splitLines (fl ++ '\n' :: r) = fl :: splitLines r := splitLines_append fl hflnl r
      have hgood2 : lineGood fl = true ∧ goodLines r = true := by
        rw [goodLines, hsl, List.all_cons, Bool.and_eq_true] at hgood
        exact hgood
      have hspec : specLineExtract (fl ++ '\n' :: r) =
          (match lineItemMatch fl with
           | some c => c :: specLineExtract r
           | none => specLineExtract r) := by
        rw [specLineExtract, hsl, List.filterMap_cons]
        cases lineItemMatch fl <;> rfl
      rw [hspec]
      by_cases hA : fl.dropWhile isPySpace = []
      · rw [lineItemMatch_none_of_ws hA]
        have hdw : (fl ++ '\n' :: r).dropWhile isPySpace = r.dropWhile isPySpace := by
          rw [List.dropWhile_append, hA]
          simp only [List.isEmpty_nil, if_true]
          exact List.dropWhile_cons_of_pos (by decide)
        have hscan_eq : itemScan (fl ++ '\n' :: r) true = itemScan r true := by
          cases htr : tryItem r with
          | some pr =>
            obtain ⟨cap, rest⟩ := pr
            have htl : tryItem (fl ++ '\n' :: r) = some (cap, rest) := by
              rw [tryItem_eq_of_dropWhile (fl ++ '\n' :: r) r hdw, htr]
            cases fl with
            | nil =>
              simp only [List.nil_append] at htl ⊢
              rw [itemScan_cons_true, htl]
              cases r with
              | nil => rw [tryItem_nil] at htr; cases htr
              | cons c2 r2 => rw [itemScan_cons_true, htr]
            | cons c fl2 =>
              rw [List.cons_append, itemScan_cons_true,
                show tryItem (c :: (fl2 ++ '\n' :: r)) = some (cap, rest) from by
                  rw [← List.cons_append]; exact htl]
              cases r with
              | nil => rw [tryItem_nil] at htr; cases htr
              | cons c2 r2 => rw [itemScan_cons_true, htr]
          | none =>
            have htl : tryItem (fl ++ '\n' :: r) = none := by
              rw [tryItem_eq_of_dropWhile (fl ++ '\n' :: r) r hdw, htr]
            cases fl with
            | nil =>
              simp only [List.nil_append] at htl ⊢
              rw [itemScan_cons_true, htl, show ('\n' == '\n') = true from by decide]
            | cons c fl2 =>
              rw [List.cons_append, itemScan_cons_true,
                show tryItem (c :: (fl2 ++ '\n' :: r)) = none from by
                  rw [← List.cons_append]; exact htl,
                show (c == '\n') = false from beq_eq_false_iff_ne.mpr
                  (fun hcc => hflnl (hcc ▸ List.mem_cons_self c fl2)),
                itemScan_walk_false fl2 (fun hm2 => hflnl (List.mem_cons_of_mem c hm2)) r]
        rw [hscan_eq, ih r hrlen hgood2.2]
      · cases hlm : lineItemMatch fl with
        | some cap =>
          have htl : tryItem (fl ++ '\n' :: r) = some (cap, '\n' :: r) :=
            tryItem_append_some ('\n' :: r) hflnl (Or.inr ⟨r, rfl⟩) hlm
          cases fl with
          | nil => exact absurd List.dropWhile_nil hA
          | cons c fl2 =>
            rw [List.cons_append, itemScan_cons_true,
              show tryItem (c :: (fl2 ++ '\n' :: r)) = some (cap, '\n' :: r) from by
                rw [← List.cons_append]; exact htl]
            show cap :: itemScan ('\n' :: r) false = cap :: specLineExtract r
            rw [itemScan_cons_false, show ('\n' == '\n') = true from by decide,
              ih r hrlen hgood2.2]
        | none =>
          have htl : tryItem (fl ++ '\n' :: r) = none :=
            tryItem_append_none ('\n' :: r) (Or.inr ⟨r, rfl⟩) hA hgood2.1 hlm
          cases fl with
          | nil => exact absurd List.dropWhile_nil hA
          | cons c fl2 =>
            rw [List.cons_append, itemScan_cons_true,
              show tryItem (c :: (fl2 ++ '\n' :: r)) = none from by
                rw [← List.cons_append]; exact htl,
              show (c == '\n') = false from beq_eq_false_iff_ne.mpr
                (fun hcc => hflnl (hcc ▸ List.mem_cons_self c fl2)),
              itemScan_walk_false fl2 (fun hm2 => hflnl (List.mem_cons_of_mem c hm2)) r,
              ih r hrlen hgood2.2]
    · have hsl : splitLines l = [l] := splitLines_no_nl l hmem
      have hspec : specLineExtract l =
          (match lineItemMatch l with | some c => [c] | none => []) := by
        rw [specLineExtract, hsl, List.filterMap_cons]
        cases lineItemMatch l <;> rfl
      rw [hspec]
      have hgood1 : lineGood l = true := by
        rw [goodLines, hsl] at hgood
        simpa using hgood
      by_cases hA : l.dropWhile isPySpace = []
      · rw [lineItemMatch_none_of_ws hA]
        have htl : tryItem l = none := tryItem_none_of_ws hA
        cases l with
        | nil => rfl
        | cons c cs =>
          rw [itemScan_cons_true, htl,
            show (c == '\n') = false from beq_eq_false_iff_ne.mpr
              (fun hcc => hmem (hcc ▸ List.mem_cons_self c cs)),
            itemScan_false_no_nl cs (fun hm2 => hmem (List.mem_cons_of_mem c hm2))]
      · cases hlm : lineItemMatch l with
        | some cap =>
          have htl : tryItem l = some (cap, []) := by
            have h0 := tryItem_append_some [] hmem (Or.inl rfl) hlm
            simpa using h0
          cases l with
          | nil => rw [tryItem_nil] at htl; cases htl
          | cons c cs =>
            rw [itemScan_cons_true, htl]
            show cap :: itemScan [] false = [cap]
            rw [itemScan_nil]
        | none =>
          have htl : tryItem l = none := by
            have h0 := tryItem_append_none [] (Or.inl rfl) hA hgood1 hlm
            simpa using h0
          cases l with
          | nil => rfl
          | cons c cs =>
            rw [itemScan_cons_true, htl,
              show (c == '\n') = false from beq_eq_false_iff_ne.mpr
                (fun hcc => hmem (hcc ▸ List.mem_cons_self c cs)),
              itemScan_false_no_nl cs (fun hm2 => hmem (List.mem_cons_of_mem c hm2))]

theorem itemScan_eq_specLineExtract (l : List Char) (h : goodLines l = true) :
    itemScan l true = specLineExtract l :=
  itemScan_eq_specLine l.length l (Nat.le_refl _) h

/-! The claims. -/

/-- Claim C1: parse_guide_to_dict is total and never raises: the literal
index-based loop with explicit indexing failure (parse_py) returns some
result on every input, namely the value of the total parser; in particular
the empty string, a string with no numbered lines, and a string with a
heading but no list items all produce valid (empty) GuideDocuments. -/
theorem claim_C1 :
    (∀ s : String, parse_py s = some (parse_guide_to_dict s)) ∧
      parse_py "" = some [] ∧
      parse_guide_to_dict "just some prose with no numbered lines" = [] ∧
      parse_guide_to_dict "### Heading\nprose but no list items" = [] :=
  ⟨parse_py_eq, by decide, by decide, by decide⟩

/-- Claim C2: an item line whose content contains a pipe is split at the
first pipe only: for a pipe-free prefix a and an arbitrary suffix b, the
line a pipe b parses to name (a trimmed) and description (all of b trimmed,
pipes included), and the line of the spec example parses as stated. -/
theorem claim_C2 :
    (∀ a b : String, '|' ∉ a.data →
        parseItemLine (a ++ "|" ++ b) =
          if pyStrip a = "" then none else some ⟨pyStrip a, pyStrip b⟩) ∧
      parse_guide_to_dict "### T\n1. Spicy|5 out of 5 | still very good" =
        [("T", [⟨"Spicy", "5 out of 5 | still very good"⟩])] :=
  ⟨parseItemLine_pipe, by decide⟩

theorem claim_C2_witness :
    parseItemLine ("Spicy" ++ "|" ++ "5 out of 5 | still very good") =
      some ⟨"Spicy", "5 out of 5 | still very good"⟩ := by
  rw [claim_C2.1 "Spicy" "5 out of 5 | still very good" (by decide)]
  decide

/-- Claim C3: a pipe-less item line keeps the whole trimmed content as the
name and receives the placeholder description (three dots, which is not the
empty string), while the same line with an explicit trailing pipe receives
the empty description, so the two cases are distinguishable; stated for
every name N without surrounding whitespace, newlines, hashes or pipes, run
through the whole parser under one heading. -/
theorem claim_C3 :
    (∀ N : String, N ≠ "" → pyStrip N = N → '\n' ∉ N.data → '#' ∉ N.data → '|' ∉ N.data →
        parse_guide_to_dict ("### T\n2. " ++ N) = [("T", [⟨N, "..."⟩])] ∧
          parse_guide_to_dict ("### T\n2. " ++ (N ++ " |")) = [("T", [⟨N, ""⟩])]) ∧
      ("..." : String) ≠ "" := by
  refine ⟨?_, by decide⟩
  intro N hne hstrip hnl hh hpipe
  have hd2 : (N ++ " |").data = N.data ++ [' ', '|'] := by
    rw [String.data_append, show (" |" : String).data = [' ', '|'] from by decide]
  constructor
  · rw [parse_single_item N hne hstrip hnl hh, parseItemLine_no_pipe N hpipe, hstrip,
      if_neg hne]
  · have hne2 : N ++ " |" ≠ "" := ne_empty_of_data (by rw [hd2]; simp)
    have hnl2 : '\n' ∉ (N ++ " |").data := by
      rw [hd2]
      intro hc
      rcases List.mem_append.mp hc with hc1 | hc1
      · exact hnl hc1
      · revert hc1
        decide
    have hh2 : '#' ∉ (N ++ " |").data := by
      rw [hd2]
      intro hc
      rcases List.mem_append.mp hc with hc1 | hc1
      · exact hh hc1
      · revert hc1
        decide
    obtain ⟨h1, h2⟩ := of_pyStrip_eq_self hstrip
    have hstrip2 : pyStrip (N ++ " |") = N ++ " |" := by
      show String.mk ((((N ++ " |").data.dropWhile isPySpace).reverse.dropWhile
        isPySpace).reverse) = N ++ " |"
      rw [hd2, dropWhile_append_self h1 (data_ne_nil hne),
        show (N.data ++ [' ', '|']).reverse = '|' :: ' ' :: N.data.reverse from by simp,
        List.dropWhile_cons_of_neg (by decide),
        show ('|' :: ' ' :: N.data.reverse).reverse = N.data ++ [' ', '|'] from by simp,
        ← hd2, mk_data]
    rw [parse_single_item (N ++ " |") hne2 hstrip2 hnl2 hh2,
      parseItemLine_trailing_bar N hpipe hne hstrip]

theorem claim_C3_witness :
    parse_guide_to_dict ("### T\n2. " ++ "Street Food") = [("T", [⟨"Street Food", "..."⟩])] ∧
      parse_guide_to_dict ("### T\n2. " ++ ("Street Food" ++ " |")) =
        [("T", [⟨"Street Food", ""⟩])] :=
  (claim_C3.1 "Street Food" (by decide) (by decide) (by decide) (by decide) (by decide))

/-- Claim C4: every item of every parsed document has a non-empty name, and
an item line whose candidate name is empty after trimming is dropped
entirely (here the whole section disappears because it was the only item). -/
theorem claim_C4 :
    (∀ (s : String) (e : String × List Item) (it : Item),
        e ∈ parse_guide_to_dict s → it ∈ e.2 → it.name ≠ "") ∧
      parse_guide_to_dict "### T\n4.  | some description" = [] := by
  constructor
  · intro s e it he hit
    exact parse_inv (fun d => ∀ e ∈ d, ∀ it ∈ e.2, it.name ≠ "")
      (fun d t b hd => stepSection_pres_names hd) (by simp) s e he it hit
  · decide

theorem claim_C4_witness : (⟨"x", "y"⟩ : Item).name ≠ "" :=
  claim_C4.1 "### B\n1. x | y" ("B", [⟨"x", "y"⟩]) ⟨"x", "y"⟩ (by decide) (by decide)

/-- Claim C5 counterexample: the heading pattern is not anchored to line
starts and does not require whitespace after the hashes: in this input the
three hashes sit in the middle of the first line and are followed directly
by the title, yet a section is produced, where the claim requires the result
to be empty (the text contains no line-start hashes-plus-whitespace marker). -/
theorem claim_C5_counterexample :
    parse_guide_to_dict "x###Title\n1. B | C" = [("Title", [⟨"B", "C"⟩])] ∧
      parse_guide_to_dict "x###Title\n1. B | C" ≠ [] :=
  ⟨by decide, by decide⟩

/-- Claim C5 as amended: a heading marker is three hash characters at any
position (not only at a line start), followed by optional whitespace; all
text before the first marker is discarded (prepending hash-free text never
changes the result), and a marker with no whitespace after the hashes is
recognised. -/
theorem claim_C5 :
    (∀ pre s : String, (∀ c ∈ pre.data, c ≠ '#') →
        parse_guide_to_dict (pre ++ s) = parse_guide_to_dict s) ∧
      parse_guide_to_dict "###A\n1. B | C" = [("A", [⟨"B", "C"⟩])] :=
  ⟨parse_append_no_hash, by decide⟩

theorem claim_C5_witness :
    parse_guide_to_dict ("hello " ++ "### T\n1. x | y") =
      parse_guide_to_dict "### T\n1. x | y" :=
  claim_C5.1 "hello " "### T\n1. x | y" (by decide)

/-- Claim C6 counterexample: extraction is not line-scoped: in the body of
this input no single line matches the pattern (the line of digits and a
period has no content after it, and the following line has no numbered
prefix), so the line-scoped reading extracts nothing, yet the parser emits
the item foo, because the whitespace after the period in the multiline
pattern crosses the line break. -/
theorem claim_C6_counterexample :
    parse_guide_to_dict "### T\n1.\nfoo" = [("T", [⟨"foo", "..."⟩])] ∧
      specLineExtract "1.\nfoo".data = [] :=
  ⟨by decide, by decide⟩

/-- Claim C6 as amended: extraction uses one line-anchored pattern over the
whole body whose two whitespace runs may span line breaks; on every body in
which no numbered prefix dangles at the end of a line (goodLines), the scan
agrees exactly with the line-scoped reading of the spec: the lines matching
the item pattern are extracted in order and every non-matching line is
ignored without aborting. -/
theorem claim_C6 :
    (∀ l : List Char, goodLines l = true → itemScan l true = specLineExtract l) ∧
      itemScan "1. a | b\nprose\n2. c".data true = ["a | b", "c"] ∧
      specLineExtract "1. a | b\nprose\n2. c".data = ["a | b", "c"] :=
  ⟨itemScan_eq_specLineExtract, by decide, by decide⟩

theorem claim_C6_witness :
    itemScan "1. x | y\nnot an item".data true =
      specLineExtract "1. x | y\nnot an item".data :=
  claim_C6.1 "1. x | y\nnot an item".data (by decide)

/-- Claim C7: no heading is ever mapped to an empty item list: every entry
of every parsed document has at least one item, and a section whose body
yields no retained items is absent from the result. -/
theorem claim_C7 :
    (∀ (s : String) (e : String × List Item), e ∈ parse_guide_to_dict s → e.2 ≠ []) ∧
      parse_guide_to_dict "### A\nprose\n### B\n1. x | y" = [("B", [⟨"x", "y"⟩])] := by
  constructor
  · intro s e he
    exact parse_inv (fun d => ∀ e ∈ d, e.2 ≠ [])
      (fun d t b hd => stepSection_pres_nonempty hd) (by simp) s e he
  · decide

theorem claim_C7_witness : (("B", [(⟨"x", "y"⟩ : Item)]) : String × List Item).2 ≠ [] :=
  claim_C7.1 "### B\n1. x | y" ("B", [⟨"x", "y"⟩]) (by decide)

/-- Claim C8: a raw text with no heading marker (no run of three hash
characters at all) parses to the empty GuideDocument, and this is a valid
returned value, not a raised error (parse_py returns some of it). -/
theorem claim_C8 :
    ∀ s : String, containsTripleHash s.data = false →
      parse_guide_to_dict s = [] ∧ parse_py s = some [] := by
  intro s h
  have h1 := parse_eq_nil_of_sections_nil (sectionsOf_eq_nil_of_no_hash3 h)
  exact ⟨h1, by rw [parse_py_eq, h1]⟩

theorem claim_C8_witness :
    parse_guide_to_dict "a city guide with # and ## but no headings" = [] ∧
      parse_py "a city guide with # and ## but no headings" = some [] :=
  claim_C8 "a city guide with # and ## but no headings" (by decide)

/-- Claim C9 counterexample: when a heading repeats and the later section
yields no retained items, the dictionary keeps the EARLIER items: the result
is neither empty nor an entry holding the later (empty) item list, contrary
to the claim that the entry holds only the later occurrence. -/
theorem claim_C9_counterexample :
    parse_guide_to_dict "### A\n1. x | y\n### A\nprose" = [("A", [⟨"x", "y"⟩])] ∧
      parse_guide_to_dict "### A\n1. x | y\n### A\nprose" ≠ [("A", [])] ∧
      parse_guide_to_dict "### A\n1. x | y\n### A\nprose" ≠ [] :=
  ⟨by decide, by decide, by decide⟩

/-- Claim C9 as amended: the result never contains two entries with the same
heading; a repeated heading whose later section yields at least one retained
item overwrites the earlier entry in place, while a repeated heading whose
later section yields no retained items leaves the earlier entry unchanged. -/
theorem claim_C9 :
    (∀ s : String, ((parse_guide_to_dict s).map Prod.fst).Nodup) ∧
      parse_guide_to_dict "### A\n1. x | y\n### A\n1. z | w" = [("A", [⟨"z", "w"⟩])] ∧
      parse_guide_to_dict "### A\n1. x | y\n### A\nprose" = [("A", [⟨"x", "y"⟩])] := by
  refine ⟨?_, by decide, by decide⟩
  intro s
  exact parse_inv (fun d => (d.map Prod.fst).Nodup)
    (fun d t b hd => stepSection_pres_nodup hd) (by simp) s

/-- Claim C10: the placeholder is the in-band string of three dots: a
pipe-less item line with content N and the line N followed by a pipe and
three literal dots parse to identical items, so the output does not record
whether the pipe was present. -/
theorem claim_C10 :
    (∀ N : String, '|' ∉ N.data → parseItemLine N = parseItemLine (N ++ "|...")) ∧
      parse_guide_to_dict "### T\n1. Street Food" =
        parse_guide_to_dict "### T\n1. Street Food |..." ∧
      parse_guide_to_dict "### T\n1. Street Food" = [("T", [⟨"Street Food", "..."⟩])] := by
  refine ⟨?_, by decide, by decide⟩
  intro N hN
  rw [parseItemLine_no_pipe N hN]
  have e1 : ("|..." : String) = "|" ++ "..." := by decide
  have e2 : N ++ "|..." = N ++ "|" ++ "..." := by rw [e1, ← String.append_assoc]
  rw [e2, parseItemLine_pipe N "..." hN]
  have e3 : pyStrip "..." = "..." := by decide
  rw [e3]

theorem claim_C10_witness : parseItemLine "Spicy" = parseItemLine ("Spicy" ++ "|...") :=
  claim_C10.1 "Spicy" (by decide)


